import Mathlib

/-!
# Pipeline configuration, downstream requests, name validation and ingress creation

A shallow embedding of

* `pkg/pipelines/pipelines.go`: `PipelineCommonConfig` with `Prepare`, the
  `DownstreamRequest` with `Respond` and `Close`, and the pipeline type registry;
* `pkg/common/utils.go`: `ValidateName`;
* `pkg/object/meshcontroller/api/api_ingress.go`: `readIngressName` and `createIngress`.

Go strings are embedded as Lean strings (sequences of code points); `len` is the
UTF-8 byte length. Go errors are embedded as `Option String`, `none` being `nil`.
Methods with a pointer receiver return the receiver's new value next to their result.
-/

namespace Easegress

/-! ## Go built-ins used by the sources -/

/-- Go `len` of a string: its length in bytes. -/
def strLen (s : String) : Nat := s.utf8ByteSize

/-- Go slice of strings: `none` is the nil slice, `some xs` a slice with elements `xs`. -/
abbrev StrSlice := Option (List String)

/-- Go `len` of a slice; the nil slice has length zero. -/
def sliceLen : StrSlice → Nat
  | none => 0
  | some xs => xs.length

/-- Elements of a slice in order, as a `for range` loop visits them. -/
def sliceElems : StrSlice → List String
  | none => []
  | some xs => xs

/-- Go `unicode.IsSpace`: the Latin-1 cases, then the `White_Space` table. -/
def isSpace (c : Char) : Bool :=
  let r := c.toNat
  if r ≤ 0xFF then
    r = 0x09 || r = 0x0A || r = 0x0B || r = 0x0C || r = 0x0D || r = 0x20 || r = 0x85 || r = 0xA0
  else
    r = 0x1680 || (0x2000 ≤ r && r ≤ 0x200A) || r = 0x2028 || r = 0x2029 || r = 0x202F
      || r = 0x205F || r = 0x3000

/-- Go `strings.TrimLeftFunc` on the code points of a string. -/
def trimLeft (f : Char → Bool) (cs : List Char) : List Char := cs.dropWhile f

/-- Go `strings.TrimRightFunc` on the code points of a string. -/
def trimRight (f : Char → Bool) (cs : List Char) : List Char := (cs.reverse.dropWhile f).reverse

/-- Go `strings.TrimSpace`: leading and trailing white space removed. -/
def TrimSpace (s : String) : String := ⟨trimRight isSpace (trimLeft isSpace s.data)⟩

/-! ## `PipelineCommonConfig` -/

/-- The struct `PipelineCommonConfig`; the two `uint16` fields hold values below `65536`. -/
structure PipelineCommonConfig where
  Name : String
  Plugins : StrSlice
  ParallelismCount : Nat
  CrossPipelineRequestBacklogLength : Nat
  deriving DecidableEq, Repr

namespace PipelineCommonConfig

def PipelineName (c : PipelineCommonConfig) : String := c.Name

def PluginNames (c : PipelineCommonConfig) : StrSlice := c.Plugins

def Parallelism (c : PipelineCommonConfig) : Nat := c.ParallelismCount

def CrossPipelineRequestBacklog (c : PipelineCommonConfig) : Nat :=
  c.CrossPipelineRequestBacklogLength

/-- The method `Prepare`: the returned error (`none` is `nil`) and the config afterwards. -/
def Prepare (c : PipelineCommonConfig) : Option String × PipelineCommonConfig :=
  if strLen (TrimSpace c.PipelineName) = 0 then
    (some "invalid pipeline name", c)
  else if sliceLen c.PluginNames = 0 then
    (some "pipeline is empty", c)
  else if c.CrossPipelineRequestBacklogLength = 0 then
    (none, { c with CrossPipelineRequestBacklogLength := 10240 % 2 ^ 16 })
  else
    (none, c)

/-- Field values of a config fit their `uint16` types. -/
def InRange (c : PipelineCommonConfig) : Prop :=
  c.ParallelismCount < 2 ^ 16 ∧ c.CrossPipelineRequestBacklogLength < 2 ^ 16

end PipelineCommonConfig

/-! ## Pipeline type registry -/

/-- The package variable `PIPELINE_TYPES`, a map literal with one key, as its entries. -/
def PIPELINE_TYPES : List (String × Unit) := [("LinearPipeline", ())]

/-- Go map lookup `_, exists := m[t]`. -/
def mapHas (m : List (String × Unit)) (t : String) : Bool := (m.lookup t).isSome

def ValidType (t : String) : Bool := mapHas PIPELINE_TYPES t

/-- The function `GetAllTypes`: the keys of the map appended one by one to an empty slice. -/
def GetAllTypes : List String :=
  PIPELINE_TYPES.foldl (fun types kv => types ++ [kv.1]) []

/-! ## `DownstreamRequest` and its response channel -/

/-- Stand-in for a Go `map[string]interface{}` payload; the code below never inspects it. -/
abbrev Payload := List (String × String)

/-- The struct `UpstreamResponse`; the result code is a number of the task package. -/
structure UpstreamResponse where
  UpstreamPipelineName : String
  Data : Payload
  TaskError : Option String
  TaskResultCode : Nat
  deriving DecidableEq, Repr

/-- A value of type `*UpstreamResponse`: `none` is the nil pointer. -/
abbrev ResponsePtr := Option UpstreamResponse

/-- State of a Go channel of `*UpstreamResponse`: its capacity as given to `make`, whether it
has been closed, and the values sitting in its buffer. -/
structure Chan where
  capacity : Nat
  closed : Bool
  queue : List ResponsePtr
  deriving DecidableEq, Repr

/-- Go `make(chan *UpstreamResponse, n)`. -/
def makeChan (n : Nat) : Chan := { capacity := n, closed := false, queue := [] }

/-- What an operation did to the response channel. -/
inductive ChanEvent where
  /-- the value was handed to a goroutine waiting in a receive -/
  | delivered (v : ResponsePtr)
  /-- the value was put into the channel buffer -/
  | queued (v : ResponsePtr)
  /-- the channel was closed -/
  | closedChan
  /-- a run-time panic was raised -/
  | panicked
  deriving DecidableEq, Repr

/-- The struct `DownstreamRequest`; `responseChan = none` is the nil channel. The mutex field
carries no data in a sequential run and is left out. -/
structure DownstreamRequest where
  upstreamPipelineName : String
  downstreamPipelineName : String
  data : Payload
  responseChan : Option Chan
  deriving DecidableEq, Repr

def NewDownstreamRequest (upstreamPipelineName downstreamPipelineName : String)
    (data : Payload) : DownstreamRequest :=
  { upstreamPipelineName := upstreamPipelineName
    downstreamPipelineName := downstreamPipelineName
    data := data
    responseChan := some (makeChan 0) }

/-- What the other goroutines offer while `Respond` sits in its `select`. -/
structure SelectEnv where
  /-- a goroutine is blocked receiving from the response channel -/
  receiverWaiting : Bool
  /-- a receive from `cancel` can proceed; never so for a nil `cancel` -/
  cancelReady : Bool
  /-- the run-time polls the send case before the receive case -/
  sendFirst : Bool
  deriving DecidableEq, Repr

/-- Result of a Go channel send that is not allowed to wait. -/
inductive SendResult where
  | panic
  | handoff
  | enqueue
  | wouldBlock
  deriving DecidableEq, Repr

/-- Go run-time `chansend` without waiting: a closed channel panics, a waiting receiver takes
the value directly, free buffer space takes it otherwise. -/
def chanSend (ch : Chan) (receiverWaiting : Bool) : SendResult :=
  if ch.closed then .panic
  else if receiverWaiting then .handoff
  else if ch.queue.length < ch.capacity then .enqueue
  else .wouldBlock

/-- How a call of `Respond` ends: it returns an error value (`none` is `nil`), or it stays
blocked in `select` because no case can proceed. -/
inductive RespondOutcome where
  | returned (err : Option String)
  | blocked
  deriving DecidableEq, Repr

/-- Result of `Respond`: the outcome, the request afterwards, the channel events. -/
structure RespondResult where
  outcome : RespondOutcome
  req : DownstreamRequest
  events : List ChanEvent
  deriving DecidableEq, Repr

namespace DownstreamRequest

def UpstreamPipelineName (r : DownstreamRequest) : String := r.upstreamPipelineName

def DownstreamPipelineName (r : DownstreamRequest) : String := r.downstreamPipelineName

def Data (r : DownstreamRequest) : Payload := r.data

def Response (r : DownstreamRequest) : Option Chan := r.responseChan

/-- The `select` of `Respond` on channel `ch`, the panic of a send on a closed channel being
caught by the deferred `recover`. -/
def respondSelect (r : DownstreamRequest) (ch : Chan) (response : ResponsePtr)
    (env : SelectEnv) : RespondResult :=
  let cancelled : RespondResult := ⟨.returned (some "response is canclled"), r, []⟩
  let trySend : RespondResult → RespondResult := fun otherwise =>
    match chanSend ch env.receiverWaiting with
    | .panic =>
      ⟨.returned (some ("request from pipeline " ++ r.downstreamPipelineName ++ " is closed")),
        r, [.panicked]⟩
    | .handoff => ⟨.returned none, r, [.delivered response]⟩
    | .enqueue =>
      ⟨.returned none,
        { r with responseChan := some { ch with queue := ch.queue ++ [response] } },
        [.queued response]⟩
    | .wouldBlock => otherwise
  if env.sendFirst then
    trySend (if env.cancelReady then cancelled else ⟨.blocked, r, []⟩)
  else if env.cancelReady then cancelled
  else trySend ⟨.blocked, r, []⟩

/-- The method `Respond`. -/
def Respond (r : DownstreamRequest) (response : ResponsePtr) (env : SelectEnv) :
    RespondResult :=
  match r.responseChan with
  | none =>
    ⟨.returned (some ("request from pipeline " ++ r.downstreamPipelineName ++ " was closed")),
      r, []⟩
  | some ch => respondSelect r ch response env

/-- The method `Close`: the request afterwards and the channel events. Go `close` of a
closed channel panics before the field is reset. -/
def Close (r : DownstreamRequest) : DownstreamRequest × List ChanEvent :=
  match r.responseChan with
  | some ch =>
    if ch.closed then (r, [.panicked])
    else ({ r with responseChan := none }, [.closedChan])
  | none => (r, [])

/-- Every channel a request still points to is open, unbuffered and empty. -/
def Valid (r : DownstreamRequest) : Prop :=
  match r.responseChan with
  | none => True
  | some ch => ch.closed = false ∧ ch.capacity = 0 ∧ ch.queue = []

end DownstreamRequest

/-- Requests made by `NewDownstreamRequest` and then used through `Close` and `Respond`. -/
inductive Reachable : DownstreamRequest → Prop where
  | new (up down : String) (data : Payload) : Reachable (NewDownstreamRequest up down data)
  | close {r : DownstreamRequest} : Reachable r → Reachable r.Close.1
  | respond {r : DownstreamRequest} (response : ResponsePtr) (env : SelectEnv) :
      Reachable r → Reachable (r.Respond response env).req

/-- The request as a call of `Respond` finds it while `Close` runs in another goroutine:
after `close(r.responseChan)` and before the field is reset to nil. `Respond` takes no lock,
so it can see this state. -/
def DownstreamRequest.closing (r : DownstreamRequest) : DownstreamRequest :=
  match r.responseChan with
  | some ch => { r with responseChan := some { ch with closed := true } }
  | none => r

/-- States in which a call of `Respond` can find a request made by `NewDownstreamRequest`:
between two calls of its methods, or in the middle of a `Close` that runs at the same time. -/
inductive Observable : DownstreamRequest → Prop where
  | settled {r : DownstreamRequest} : Reachable r → Observable r
  | midClose {r : DownstreamRequest} : Reachable r → Observable r.closing

/-- The downstream goroutine that reads from `Response()`: not at its receive yet, blocked
in the receive, or past the receive with the value it got. -/
inductive Receiver where
  | idle
  | waiting
  | received (v : ResponsePtr)
  deriving DecidableEq, Repr

def Receiver.isWaiting : Receiver → Bool
  | .waiting => true
  | _ => false

/-- The receiver after the channel events of one `Respond`: a blocked receive completes with
the value that was handed over. -/
def Receiver.afterRespond : Receiver → List ChanEvent → Receiver
  | .waiting, .delivered v :: _ => .received v
  | rcv, _ :: es => rcv.afterRespond es
  | rcv, [] => rcv

/-- One call of `Respond` next to the downstream receiver: the result of `Respond` and the
receiver afterwards. -/
def respondTo (r : DownstreamRequest) (response : ResponsePtr) (rcv : Receiver)
    (cancelReady sendFirst : Bool) : RespondResult × Receiver :=
  let res := r.Respond response ⟨rcv.isWaiting, cancelReady, sendFirst⟩
  (res, rcv.afterRespond res.events)

/-! ## `ValidateName` and its regular expression -/

/-- The fragment of Go regular expressions that `URLFriendlyCharactersRegex` is written in. -/
inductive Regex where
  /-- the anchor `^` without the multi-line flag: the start of the text -/
  | beginText
  /-- the anchor `$` without the multi-line flag: the end of the text -/
  | endText
  /-- a class `[...]` given by its ranges, a single character being a one-element range -/
  | charClass (ranges : List (Char × Char))
  /-- the bounded repetition `r{lo,hi}` -/
  | times (r : Regex) (lo hi : Nat)
  /-- the concatenation `ab` -/
  | seq (a b : Regex)
  deriving Repr

/-- A place in the text: the number of characters before it and the characters after it. -/
abbrev Pos := Nat × List Char

/-- Membership of a character in a class. -/
def inClass (ranges : List (Char × Char)) (c : Char) : Bool :=
  ranges.any (fun lh => lh.1.toNat ≤ c.toNat && c.toNat ≤ lh.2.toNat)

/-- All places reached from `p` by `lo` to `hi` consecutive matches of `m`. -/
def repeatStep (m : Pos → List Pos) (lo : Nat) : Nat → Pos → List Pos
  | 0, p => if lo = 0 then [p] else []
  | hi + 1, p =>
    (if lo = 0 then [p] else []) ++ (m p).flatMap (repeatStep m (lo - 1) hi)

/-- All places at which a match of the expression that starts at `p` can end. -/
def Regex.step : Regex → Pos → List Pos
  | .beginText => fun p => if p.1 = 0 then [p] else []
  | .endText => fun p => if p.2.isEmpty then [p] else []
  | .charClass ranges => fun p =>
    match p.2 with
    | [] => []
    | c :: cs => if inClass ranges c then [(p.1 + 1, cs)] else []
  | .times r lo hi => repeatStep r.step lo hi
  | .seq a b => fun p => (a.step p).flatMap b.step

/-- Go `(*Regexp).Match`: the text contains a match of the expression, starting anywhere. -/
def Regex.Match (re : Regex) (text : List Char) : Bool :=
  (List.range (text.length + 1)).any (fun i => !(re.step (i, text.drop i)).isEmpty)

/-- The class `[A-Za-z0-9\-_\.~]`. -/
def urlFriendlyClass : List (Char × Char) :=
  [('A', 'Z'), ('a', 'z'), ('0', '9'), ('-', '-'), ('_', '_'), ('.', '.'), ('~', '~')]

/-- The package variable `URLFriendlyCharactersRegex`, `^[A-Za-z0-9\-_\.~]{1,253}$`. -/
def URLFriendlyCharactersRegex : Regex :=
  .seq .beginText (.seq (.times (.charClass urlFriendlyClass) 1 253) .endText)

def ValidateName (name : String) : Option String :=
  if !URLFriendlyCharactersRegex.Match name.data then
    some ("invalid constant: " ++ name)
  else
    none

/-- Unreserved characters of RFC 3986 section 2.3, as the documentation names them:
ASCII letters, ASCII digits, hyphen, underscore, period and tilde. -/
def isUnreserved (c : Char) : Bool :=
  c.isAlpha || c.isDigit || c = '-' || c = '_' || c = '.' || c = '~'

/-! ## `createIngress` -/

/-- The struct `spec.Ingress`, declared outside the sources read here: its name, and its rules
kept as uninterpreted text. -/
structure Ingress where
  Name : String
  Rules : List String
  deriving DecidableEq, Repr

/-- Modelled from the spec: the ingress specs kept by the mesh service, whose code is not
among the sources, as a map from ingress name to spec, at most one entry per name. -/
abbrev Service := List (String × Ingress)

/-- Modelled from the spec: `GetIngressSpec` of the mesh service, the spec stored under a name
or nil. -/
def Service.GetIngressSpec (s : Service) (ingressName : String) : Option Ingress :=
  s.lookup ingressName

/-- Modelled from the spec: `PutIngressSpec` of the mesh service, storing a spec under its
own name in place of any spec stored there. -/
def Service.PutIngressSpec (s : Service) (ingressSpec : Ingress) : Service :=
  (ingressSpec.Name, ingressSpec) :: s.filter (fun kv => kv.1 != ingressSpec.Name)

/-- What a handler reads of an HTTP request: the URL parameter `ingressName`, the URL path,
and the body. -/
structure Request where
  ingressName : String
  urlPath : String
  body : String
  deriving DecidableEq, Repr

/-- What a handler wrote: the status code, the headers it set, and the error handed to
`HandleAPIError`, if any. -/
structure Reply where
  status : Nat
  header : List (String × String)
  error : Option String
  deriving DecidableEq, Repr

def StatusCreated : Nat := 201
def StatusBadRequest : Nat := 400
def StatusConflict : Nat := 409

/-- The function `HandleAPIError` of package `api`: it answers with the code and the error. -/
def HandleAPIError (code : Nat) (err : String) : Reply :=
  { status := code, header := [], error := some err }

/-- The method `readIngressName`. -/
def readIngressName (r : Request) : Except String String :=
  let serviceName := r.ingressName
  if serviceName = "" then .error "empty ingress name" else .ok serviceName

/-- The method `createIngress`: the service afterwards and the reply. The method
`readAPISpec`, which decodes the body into a spec or fails, is a parameter. -/
def createIngress (readAPISpec : Request → Except String Ingress) (service : Service)
    (r : Request) : Service × Reply :=
  match readIngressName r with
  | .error err => (service, HandleAPIError StatusBadRequest err)
  | .ok ingressName =>
    match readAPISpec r with
    | .error err => (service, HandleAPIError StatusBadRequest err)
    | .ok ingressSpec =>
      if ingressName ≠ ingressSpec.Name then
        (service, HandleAPIError StatusBadRequest
          ("name conflict: " ++ ingressName ++ " " ++ ingressSpec.Name))
      else
        match service.GetIngressSpec ingressName with
        | some _ => (service, HandleAPIError StatusConflict (ingressName ++ " existed"))
        | none =>
          (service.PutIngressSpec ingressSpec,
            { status := StatusCreated, header := [("Location", r.urlPath)], error := none })

/-! ## Facts about the built-ins -/

theorem strLen_eq_zero_iff (s : String) : strLen s = 0 ↔ s = "" := by
  constructor
  · intro h
    cases s with
    | mk cs =>
      cases cs with
      | nil => rfl
      | cons c cs =>
        exfalso
        have hc := Char.utf8Size_pos c
        simp only [strLen, String.utf8ByteSize, String.utf8ByteSize.go] at h
        omega
  · rintro rfl
    rfl

theorem dropWhile_eq_nil_iff_all (f : Char → Bool) (cs : List Char) :
    cs.dropWhile f = [] ↔ ∀ c ∈ cs, f c = true := by
  induction cs with
  | nil => simp
  | cons a as ih =>
    by_cases h : f a = true
    · simp [List.dropWhile, h, ih]
    · simp [List.dropWhile, h]

theorem dropWhile_subset (f : Char → Bool) (cs : List Char) :
    ∀ c ∈ cs.dropWhile f, c ∈ cs := by
  intro c hc
  exact (List.dropWhile_sublist f).subset hc

/-- Trimming leaves nothing exactly when the string consists of white space only. -/
theorem TrimSpace_eq_empty_iff (s : String) :
    TrimSpace s = "" ↔ ∀ c ∈ s.data, isSpace c = true := by
  have key : trimRight isSpace (trimLeft isSpace s.data) = [] ↔
      ∀ c ∈ s.data, isSpace c = true := by
    unfold trimRight trimLeft
    rw [List.reverse_eq_nil_iff, dropWhile_eq_nil_iff_all]
    constructor
    · intro h
      by_contra hne
      have hd : s.data.dropWhile isSpace ≠ [] := by
        intro h0
        exact hne ((dropWhile_eq_nil_iff_all _ _).1 h0)
      obtain ⟨a, as, has⟩ := List.exists_cons_of_ne_nil hd
      have hfa : isSpace a = false := by
        have := List.head_dropWhile_not isSpace s.data hd
        simpa [has] using this
      have : isSpace a = true := h a (by simp [has])
      simp [hfa] at this
    · intro h c hc
      exact h c (dropWhile_subset _ _ c (by simpa using hc))
  constructor
  · intro h
    apply key.1
    have := congrArg String.data h
    simpa [TrimSpace] using this
  · intro h
    have := key.2 h
    simp [TrimSpace, this]

namespace PipelineCommonConfig

/-- The error value of `Prepare`, by the two checks it makes. -/
theorem Prepare_fst (c : PipelineCommonConfig) :
    c.Prepare.1 =
      if TrimSpace c.PipelineName = "" then some "invalid pipeline name"
      else if sliceLen c.PluginNames = 0 then some "pipeline is empty"
      else none := by
  unfold Prepare
  by_cases h1 : TrimSpace c.PipelineName = ""
  · have h0 : strLen (TrimSpace c.PipelineName) = 0 := (strLen_eq_zero_iff _).2 h1
    rw [if_pos h0, if_pos h1]
  · have h0 : ¬ strLen (TrimSpace c.PipelineName) = 0 := fun h => h1 ((strLen_eq_zero_iff _).1 h)
    rw [if_neg h0, if_neg h1]
    by_cases h2 : sliceLen c.PluginNames = 0
    · rw [if_pos h2, if_pos h2]
    · rw [if_neg h2, if_neg h2]
      by_cases h4 : c.CrossPipelineRequestBacklogLength = 0
      · rw [if_pos h4]
      · rw [if_neg h4]

theorem sliceLen_eq_zero_iff (p : StrSlice) : sliceLen p = 0 ↔ (p = none ∨ p = some []) := by
  cases p with
  | none => simp [sliceLen]
  | some xs => cases xs <;> simp [sliceLen]

/-- Claim C1: `Prepare` returns an error exactly when the trimmed pipeline name is empty or
the plugin name list has length zero, being nil or empty; otherwise it returns nil. -/
theorem Prepare_error_iff (c : PipelineCommonConfig) :
    (c.Prepare.1 ≠ none ↔
      (TrimSpace c.PipelineName = "" ∨ c.PluginNames = none ∨ c.PluginNames = some []))
    ∧ (c.Prepare.1 = none ↔
      (TrimSpace c.PipelineName ≠ "" ∧ 0 < sliceLen c.PluginNames)) := by
  rw [Prepare_fst, ← sliceLen_eq_zero_iff]
  by_cases h1 : TrimSpace c.PipelineName = ""
  · simp [h1]
  · by_cases h2 : sliceLen c.PluginNames = 0
    · simp [h1, h2]
    · have h3 : 0 < sliceLen c.PluginNames := Nat.pos_of_ne_zero h2
      simp [h1, h2, h3]

/-- Claim C2: after a successful `Prepare` the backlog is 10240 if it was configured as 0
and the configured value otherwise, and in either case it is not 0. -/
theorem Prepare_backlog (c : PipelineCommonConfig) (h : c.Prepare.1 = none) :
    c.Prepare.2.CrossPipelineRequestBacklog =
        (if c.CrossPipelineRequestBacklog = 0 then 10240 else c.CrossPipelineRequestBacklog)
      ∧ c.Prepare.2.CrossPipelineRequestBacklog ≠ 0 := by
  unfold Prepare at h ⊢
  unfold CrossPipelineRequestBacklog
  by_cases h1 : strLen (TrimSpace c.PipelineName) = 0
  · simp [h1] at h
  · by_cases h2 : sliceLen c.PluginNames = 0
    · simp [h1, h2] at h
    · by_cases h4 : c.CrossPipelineRequestBacklogLength = 0
      · simp [h1, h2, h4]
      · simp [h1, h2, h4]

theorem Prepare_backlog_witness :
    (PipelineCommonConfig.mk "p1" (some ["src", "sink"]) 1 0).Prepare.1 = none
      ∧ (PipelineCommonConfig.mk "p1" (some ["src", "sink"]) 1 0).Prepare.2.CrossPipelineRequestBacklog
          = 10240 :=
  ⟨by decide, by
    have h := (Prepare_backlog (PipelineCommonConfig.mk "p1" (some ["src", "sink"]) 1 0)
      (by decide)).1
    simpa [CrossPipelineRequestBacklog] using h⟩

/-- A prepared config keeps its fields within `uint16`. -/
theorem Prepare_inRange (c : PipelineCommonConfig) (h : c.InRange) : c.Prepare.2.InRange := by
  unfold Prepare InRange at *
  split_ifs <;> simp_all

/-- Claim C6 fails as stated: `Prepare` returns nil on a config whose only plugin name is the
empty string. -/
theorem Prepare_accepts_empty_plugin_name :
    (PipelineCommonConfig.mk "p1" (some [""]) 0 0).Prepare.1 = none
      ∧ ¬ (∀ n ∈ sliceElems (PipelineCommonConfig.mk "p1" (some [""]) 0 0).PluginNames, n ≠ "") := by
  refine ⟨by decide, ?_⟩
  intro h
  exact h "" (by simp [sliceElems, PluginNames]) rfl

/-- Claim C6 as amended: on every config on which `Prepare` returns nil the plugin name
list has at least one element. -/
theorem Prepare_plugins_nonempty (c : PipelineCommonConfig) (h : c.Prepare.1 = none) :
    0 < sliceLen c.PluginNames ∧ sliceElems c.PluginNames ≠ [] := by
  have h3 : 0 < sliceLen c.PluginNames := by
    rw [Prepare_fst] at h
    by_cases h1 : TrimSpace c.PipelineName = ""
    · simp [h1] at h
    · by_cases h2 : sliceLen c.PluginNames = 0
      · simp [h1, h2] at h
      · exact Nat.pos_of_ne_zero h2
  refine ⟨h3, ?_⟩
  cases hp : c.PluginNames with
  | none => simp [hp, sliceLen] at h3
  | some xs =>
    cases xs with
    | nil => simp [hp, sliceLen] at h3
    | cons a as => simp [sliceElems]

theorem Prepare_plugins_nonempty_witness :
    (PipelineCommonConfig.mk "p1" (some [""]) 0 0).Prepare.1 = none
      ∧ 0 < sliceLen (PipelineCommonConfig.mk "p1" (some [""]) 0 0).PluginNames :=
  ⟨by decide, (Prepare_plugins_nonempty (PipelineCommonConfig.mk "p1" (some [""]) 0 0)
    (by decide)).1⟩

/-- Claim C9: `Prepare` keeps the pipeline name, the plugin names and the parallelism; when
it returns an error it keeps the whole config; and a second `Prepare` returns the same
result and changes nothing. -/
theorem Prepare_frame (c : PipelineCommonConfig) :
    c.Prepare.2.PipelineName = c.PipelineName
      ∧ c.Prepare.2.PluginNames = c.PluginNames
      ∧ c.Prepare.2.Parallelism = c.Parallelism
      ∧ (c.Prepare.1 ≠ none → c.Prepare.2 = c)
      ∧ c.Prepare.2.Prepare = (c.Prepare.1, c.Prepare.2) := by
  unfold Prepare PipelineName PluginNames Parallelism
  by_cases h1 : strLen (TrimSpace c.Name) = 0
  · simp [h1]
  · by_cases h2 : sliceLen c.Plugins = 0
    · simp [h1, h2]
    · by_cases h4 : c.CrossPipelineRequestBacklogLength = 0
      · simp [h1, h2, h4]
      · simp [h1, h2, h4]

end PipelineCommonConfig

/-- Claim C5: `ValidType t` holds exactly for `t = "LinearPipeline"`, `GetAllTypes` is the
one-element list of that name, and so `ValidType t` holds exactly for the members of
`GetAllTypes`. -/
theorem ValidType_iff (t : String) :
    (ValidType t = true ↔ t = "LinearPipeline")
      ∧ GetAllTypes = ["LinearPipeline"]
      ∧ (ValidType t = true ↔ t ∈ GetAllTypes) := by
  have h1 : ValidType t = true ↔ t = "LinearPipeline" := by
    unfold ValidType mapHas PIPELINE_TYPES
    by_cases h : t = "LinearPipeline"
    · subst h
      simp [List.lookup]
    · have hb : (t == "LinearPipeline") = false := by simpa using h
      simp [List.lookup, hb, h]
  have h2 : GetAllTypes = ["LinearPipeline"] := rfl
  refine ⟨h1, h2, ?_⟩
  rw [h1, h2]
  simp

namespace DownstreamRequest

/-! ## The invariant of downstream requests -/

theorem valid_new (up down : String) (data : Payload) :
    (NewDownstreamRequest up down data).Valid := by
  simp [Valid, NewDownstreamRequest, makeChan]

theorem close_of_valid (r : DownstreamRequest) (h : r.Valid) :
    r.Close = ({ r with responseChan := none }, (r.responseChan.map fun _ => ChanEvent.closedChan).toList) := by
  unfold Valid at h
  unfold Close
  cases hc : r.responseChan with
  | none =>
    cases r
    simp_all
  | some ch =>
    rw [hc] at h
    simp [h.1]

theorem valid_close (r : DownstreamRequest) (h : r.Valid) : r.Close.1.Valid := by
  rw [close_of_valid r h]
  simp [Valid]

theorem chanSend_of_unbuffered (ch : Chan) (w : Bool) (h1 : ch.closed = false)
    (h2 : ch.capacity = 0) :
    chanSend ch w = if w then SendResult.handoff else SendResult.wouldBlock := by
  unfold chanSend
  simp [h1, h2]

theorem respond_req_of_valid (r : DownstreamRequest) (h : r.Valid) (response : ResponsePtr)
    (env : SelectEnv) : (r.Respond response env).req = r := by
  unfold Valid at h
  unfold Respond
  cases hc : r.responseChan with
  | none => rfl
  | some ch =>
    rw [hc] at h
    simp only [respondSelect, chanSend_of_unbuffered ch _ h.1 h.2.1]
    cases env.receiverWaiting <;> cases env.cancelReady <;> cases env.sendFirst <;> simp

theorem valid_respond (r : DownstreamRequest) (h : r.Valid) (response : ResponsePtr)
    (env : SelectEnv) : (r.Respond response env).req.Valid := by
  rw [respond_req_of_valid r h]
  exact h

theorem valid_of_reachable (r : DownstreamRequest) (h : Reachable r) : r.Valid := by
  induction h with
  | new up down data => exact valid_new up down data
  | close _ ih => exact valid_close _ ih
  | respond response env _ ih => exact valid_respond _ ih response env

/-- Claim C3: on a request that has been closed with `Close`, `Respond` returns the error
that the request was closed, whatever the response and the cancel signal; it raises no
panic, sends nothing, and leaves the request closed. -/
theorem Respond_after_Close (r : DownstreamRequest) (h : r.Valid) (response : ResponsePtr)
    (env : SelectEnv) :
    r.Close.1.Respond response env =
        ⟨.returned (some ("request from pipeline " ++ r.DownstreamPipelineName ++ " was closed")),
          r.Close.1, []⟩
      ∧ r.Close.1.Response = none := by
  rw [close_of_valid r h]
  simp [Respond, Response, DownstreamPipelineName]

theorem Respond_after_Close_witness :
    ((NewDownstreamRequest "up" "down" []).Close.1.Respond none ⟨true, true, true⟩).outcome
        = .returned (some "request from pipeline down was closed")
      ∧ ((NewDownstreamRequest "up" "down" []).Close.1.Respond none ⟨true, true, true⟩).events = [] := by
  have h := (Respond_after_Close (NewDownstreamRequest "up" "down" [])
    (by simp [Valid, NewDownstreamRequest, makeChan]) none ⟨true, true, true⟩).1
  rw [h]
  exact ⟨by decide, rfl⟩

/-- Claim C4: `Close` is idempotent. After one call the response channel is released and the
names and data are as before; a second call returns the same request, raises no panic and
closes no channel. -/
theorem Close_idempotent (r : DownstreamRequest) (h : r.Valid) :
    r.Close.1.Close = (r.Close.1, [])
      ∧ r.Close.1.Response = none
      ∧ r.Close.1.UpstreamPipelineName = r.UpstreamPipelineName
      ∧ r.Close.1.DownstreamPipelineName = r.DownstreamPipelineName
      ∧ r.Close.1.Data = r.Data
      ∧ ChanEvent.panicked ∉ r.Close.2 := by
  rw [close_of_valid r h]
  refine ⟨by simp [Close], rfl, rfl, rfl, rfl, ?_⟩
  cases r.responseChan <;> simp

theorem Close_idempotent_witness :
    (NewDownstreamRequest "up" "down" []).Close.2 = [ChanEvent.closedChan]
      ∧ (NewDownstreamRequest "up" "down" []).Close.1.Close
          = ((NewDownstreamRequest "up" "down" []).Close.1, []) :=
  ⟨by decide, (Close_idempotent (NewDownstreamRequest "up" "down" [])
    (by simp [Valid, NewDownstreamRequest, makeChan])).1⟩

theorem unbuffered_of_observable (r : DownstreamRequest) (h : Observable r) :
    ∀ ch, r.responseChan = some ch → ch.capacity = 0 ∧ ch.queue = [] := by
  cases h with
  | settled hr =>
    intro ch hc
    have hv := valid_of_reachable _ hr
    unfold Valid at hv
    rw [hc] at hv
    exact ⟨hv.2.1, hv.2.2⟩
  | @midClose r0 hr =>
    intro ch hc
    have hv := valid_of_reachable _ hr
    unfold Valid at hv
    unfold closing at hc
    cases h0 : r0.responseChan with
    | none =>
      rw [h0] at hc
      simp [h0] at hc
    | some ch0 =>
      rw [h0] at hv hc
      simp only [Option.some.injEq] at hc
      subst hc
      exact ⟨hv.2.1, hv.2.2⟩

/-- Claim C8: the response channel of a request made by `NewDownstreamRequest` has capacity
zero and an empty buffer, in every state in which `Respond` can find the request, a `Close`
running at the same time included. So whenever `Respond` returns nil the downstream receiver
was blocked in its receive on an open channel and has received that response; no call of
`Respond` puts a response in a buffer or changes the request; and on a channel that is
already closed `Respond` returns an error. -/
theorem Respond_nil_is_rendezvous (r : DownstreamRequest) (hr : Observable r)
    (response : ResponsePtr) (rcv : Receiver) (cancelReady sendFirst : Bool) :
    (∀ ch, r.Response = some ch → ch.capacity = 0 ∧ ch.queue = [])
      ∧ ((respondTo r response rcv cancelReady sendFirst).1.outcome = .returned none →
          rcv = .waiting
            ∧ (respondTo r response rcv cancelReady sendFirst).2 = .received response
            ∧ (respondTo r response rcv cancelReady sendFirst).1.events = [.delivered response]
            ∧ ∃ ch, r.Response = some ch ∧ ch.closed = false)
      ∧ (∀ v, ChanEvent.queued v ∉ (respondTo r response rcv cancelReady sendFirst).1.events)
      ∧ (respondTo r response rcv cancelReady sendFirst).1.req = r
      ∧ (∀ ch, r.Response = some ch → ch.closed = true →
          ∃ e, (respondTo r response rcv cancelReady sendFirst).1.outcome = .returned (some e)) := by
  have hu := unbuffered_of_observable r hr
  obtain ⟨up, down, data, rc⟩ := r
  cases rc with
  | none =>
    simp [respondTo, Respond, Response, Receiver.afterRespond]
  | some ch =>
    obtain ⟨cap, closed, queue⟩ := ch
    obtain ⟨hcap, hq⟩ := hu _ rfl
    simp only at hcap hq
    subst hcap
    subst hq
    cases closed <;> cases rcv <;> cases cancelReady <;> cases sendFirst <;>
      simp [respondTo, Respond, Response, respondSelect, chanSend, Receiver.isWaiting,
        Receiver.afterRespond]

theorem Respond_nil_is_rendezvous_witness :
    (respondTo (NewDownstreamRequest "up" "down" []) none .waiting false true).1.outcome
        = .returned none
      ∧ (respondTo (NewDownstreamRequest "up" "down" []) none .waiting false true).2
        = .received none :=
  ⟨by decide, ((Respond_nil_is_rendezvous (NewDownstreamRequest "up" "down" [])
    (Observable.settled (Reachable.new "up" "down" [])) none .waiting false true).2.1
      (by decide)).2.1⟩

end DownstreamRequest

/-! ## `ValidateName` -/

theorem inClass_urlFriendly_iff (c : Char) :
    inClass urlFriendlyClass c = isUnreserved c := by
  have e : ∀ d : Char, (c = d) ↔ c.toNat = d.toNat := by
    intro d
    constructor
    · intro h; rw [h]
    · intro h
      apply Char.ext
      apply UInt32.ext
      exact h
  have hA : 'A'.val.toNat = 65 := rfl
  have hZ : 'Z'.val.toNat = 90 := rfl
  have ha : 'a'.val.toNat = 97 := rfl
  have hz : 'z'.val.toNat = 122 := rfl
  have h0 : '0'.val.toNat = 48 := rfl
  have h9 : '9'.val.toNat = 57 := rfl
  have hm : '-'.val.toNat = 45 := rfl
  have hu : '_'.val.toNat = 95 := rfl
  have hd : '.'.val.toNat = 46 := rfl
  have ht : '~'.val.toNat = 126 := rfl
  have t : c.val.toBitVec.toNat = c.val.toNat := rfl
  have k65 : (UInt32.toBitVec 65).toNat = 65 := rfl
  have k90 : (UInt32.toBitVec 90).toNat = 90 := rfl
  have k97 : (UInt32.toBitVec 97).toNat = 97 := rfl
  have k122 : (UInt32.toBitVec 122).toNat = 122 := rfl
  have k48 : (UInt32.toBitVec 48).toNat = 48 := rfl
  have k57 : (UInt32.toBitVec 57).toNat = 57 := rfl
  simp only [inClass, urlFriendlyClass, isUnreserved, Char.isAlpha, Char.isUpper, Char.isLower, Char.isDigit,
    List.any_cons, List.any_nil, e]
  simp only [Char.toNat, UInt32.le_def, ge_iff_le, Fin.le_def, BitVec.le_def, hA, hZ, ha, hz, h0, h9, hm, hu, hd, ht,
    t, k65, k90, k97, k122, k48, k57]
  generalize c.val.toNat = n
  rw [Bool.eq_iff_iff]
  simp only [Bool.or_eq_true, Bool.and_eq_true, decide_eq_true_eq, Bool.or_false]
  omega

theorem charClass_step_nil (cls : List (Char × Char)) (i : Nat) :
    (Regex.charClass cls).step (i, []) = [] := rfl

theorem charClass_step_cons (cls : List (Char × Char)) (i : Nat) (c : Char) (cs : List Char) :
    (Regex.charClass cls).step (i, c :: cs) = if inClass cls c then [(i + 1, cs)] else [] := rfl

/-- The places reached by a bounded repetition of a class: after `n` characters of the class,
for every `n` within the bounds. -/
theorem mem_repeatStep_charClass (cls : List (Char × Char)) :
    ∀ (hi lo i : Nat) (rest : List Char) (q : Pos),
      q ∈ repeatStep (Regex.charClass cls).step lo hi (i, rest) ↔
        ∃ n, lo ≤ n ∧ n ≤ hi ∧ n ≤ rest.length ∧ (∀ c ∈ rest.take n, inClass cls c = true)
          ∧ q = (i + n, rest.drop n) := by
  intro hi
  induction hi with
  | zero =>
    intro lo i rest q
    simp only [repeatStep]
    constructor
    · intro h
      by_cases hlo : lo = 0
      · simp [hlo] at h
        exact ⟨0, by omega, by omega, by omega, by simp, by simpa using h⟩
      · simp [hlo] at h
    · rintro ⟨n, h1, h2, -, -, h5⟩
      have hn : n = 0 := by omega
      have hlo : lo = 0 := by omega
      subst hn
      simp [hlo, h5]
  | succ hi ih =>
    intro lo i rest q
    simp only [repeatStep, List.mem_append, List.mem_flatMap]
    constructor
    · rintro (h | ⟨p, hp, hq⟩)
      · by_cases hlo : lo = 0
        · simp [hlo] at h
          exact ⟨0, by omega, by omega, by omega, by simp, by simpa using h⟩
        · simp [hlo] at h
      · cases rest with
        | nil => simp [charClass_step_nil] at hp
        | cons c cs =>
          rw [charClass_step_cons] at hp
          by_cases hc : inClass cls c = true
          · simp [hc] at hp
            subst hp
            obtain ⟨n, h1, h2, h3, h4, h5⟩ := (ih (lo - 1) (i + 1) cs q).1 hq
            refine ⟨n + 1, by omega, by omega, by simp; omega, ?_, ?_⟩
            · intro d hd
              simp only [List.take_succ_cons, List.mem_cons] at hd
              rcases hd with rfl | hd
              · exact hc
              · exact h4 d hd
            · rw [h5]
              simp
              omega
          · simp [hc] at hp
    · rintro ⟨n, h1, h2, h3, h4, h5⟩
      cases n with
      | zero =>
        left
        have hlo : lo = 0 := by omega
        simp [hlo, h5]
      | succ n =>
        right
        cases rest with
        | nil => simp at h3
        | cons c cs =>
          have hc : inClass cls c = true := h4 c (by simp)
          refine ⟨(i + 1, cs), by simp [charClass_step_cons, hc], ?_⟩
          apply (ih (lo - 1) (i + 1) cs q).2
          refine ⟨n, by omega, by omega, by simpa using h3, ?_, ?_⟩
          · intro d hd
            exact h4 d (by simp [hd])
          · rw [h5]
            simp
            omega

/-- The expression matches a text exactly when the text has 1 to 253 characters, all of them
of the class. -/
theorem URLFriendlyCharactersRegex_match_iff (text : List Char) :
    URLFriendlyCharactersRegex.Match text = true ↔
      1 ≤ text.length ∧ text.length ≤ 253 ∧ ∀ c ∈ text, inClass urlFriendlyClass c = true := by
  have hstep : ∀ i : Nat, ∀ rest : List Char,
      URLFriendlyCharactersRegex.step (i, rest) =
        if i = 0 then
          (repeatStep (Regex.charClass urlFriendlyClass).step 1 253 (i, rest)).flatMap
            (fun p => if p.2.isEmpty then [p] else [])
        else [] := by
    intro i rest
    by_cases hi : i = 0
    · simp [URLFriendlyCharactersRegex, Regex.step, hi]
    · simp [URLFriendlyCharactersRegex, Regex.step, hi]
  have hne : ∀ i : Nat, ∀ rest : List Char,
      (URLFriendlyCharactersRegex.step (i, rest)).isEmpty = false ↔
        i = 0 ∧ 1 ≤ rest.length ∧ rest.length ≤ 253
          ∧ ∀ c ∈ rest, inClass urlFriendlyClass c = true := by
    intro i rest
    rw [hstep]
    by_cases hi : i = 0
    · simp only [hi, if_true, true_and]
      rw [← Bool.not_eq_true, List.isEmpty_iff, ← ne_eq]
      constructor
      · intro hne0
        obtain ⟨q, qs, hq⟩ := List.exists_cons_of_ne_nil hne0
        have hmem : q ∈ (repeatStep (Regex.charClass urlFriendlyClass).step 1 253 (0, rest)).flatMap
            (fun p => if p.2.isEmpty then [p] else []) := by
          rw [hq]; simp
        rw [List.mem_flatMap] at hmem
        obtain ⟨p, hp, hqp⟩ := hmem
        obtain ⟨n, h1, h2, h3, h4, h5⟩ := (mem_repeatStep_charClass _ _ _ _ _ _).1 hp
        by_cases hemp : p.2.isEmpty = true
        · rw [h5] at hemp
          simp only [List.isEmpty_iff, List.drop_eq_nil_iff] at hemp
          have hn : n = rest.length := by omega
          subst hn
          refine ⟨h1, h2, ?_⟩
          simpa using h4
        · simp [hemp] at hqp
      · rintro ⟨h1, h2, h3⟩
        have hp : ((0 + rest.length, rest.drop rest.length) : Pos) ∈
            repeatStep (Regex.charClass urlFriendlyClass).step 1 253 (0, rest) :=
          (mem_repeatStep_charClass _ _ _ _ _ _).2
            ⟨rest.length, h1, h2, le_refl _, by simpa using h3, rfl⟩
        have hmem : ((0 + rest.length, rest.drop rest.length) : Pos) ∈
            (repeatStep (Regex.charClass urlFriendlyClass).step 1 253 (0, rest)).flatMap
              (fun p => if p.2.isEmpty then [p] else []) := by
          rw [List.mem_flatMap]
          exact ⟨_, hp, by simp⟩
        cases hl : (repeatStep (Regex.charClass urlFriendlyClass).step 1 253 (0, rest)).flatMap
              (fun p => if p.2.isEmpty then [p] else []) with
        | nil => rw [hl] at hmem; simp at hmem
        | cons a as => simp
    · simp [hi]
  unfold Regex.Match
  rw [List.any_eq_true]
  constructor
  · rintro ⟨i, -, hi⟩
    have hi2 : (URLFriendlyCharactersRegex.step (i, List.drop i text)).isEmpty = false := by
      simpa using hi
    obtain ⟨h0, h⟩ := (hne _ _).1 hi2
    subst h0
    simpa using h
  · intro h
    refine ⟨0, by simp, ?_⟩
    have := (hne 0 text).2 ⟨rfl, h⟩
    simpa using this

/-- Claim C7: `ValidateName` returns nil exactly for the names of 1 to 253 characters that are
all unreserved characters of RFC 3986 section 2.3, and an error for every other name. -/
theorem ValidateName_nil_iff (name : String) :
    (ValidateName name = none ↔
      1 ≤ name.length ∧ name.length ≤ 253 ∧ ∀ c ∈ name.data, isUnreserved c = true)
    ∧ (ValidateName name ≠ none ↔
      name.length = 0 ∨ 253 < name.length ∨ ∃ c ∈ name.data, isUnreserved c = false) := by
  have h := URLFriendlyCharactersRegex_match_iff name.data
  simp only [inClass_urlFriendly_iff] at h
  have hlen : name.data.length = name.length := rfl
  rw [hlen] at h
  have h1 : ValidateName name = none ↔
      1 ≤ name.length ∧ name.length ≤ 253 ∧ ∀ c ∈ name.data, isUnreserved c = true := by
    rw [← h]
    unfold ValidateName
    cases URLFriendlyCharactersRegex.Match name.data <;> simp
  refine ⟨h1, ?_⟩
  rw [ne_eq, h1]
  constructor
  · intro hn
    by_contra hc
    push_neg at hc
    apply hn
    refine ⟨by omega, by omega, ?_⟩
    intro c hcm
    have := hc.2.2 c hcm
    simpa using this
  · rintro (h0 | h253 | ⟨c, hcm, hcf⟩) ⟨a, b, d⟩
    · omega
    · omega
    · rw [d c hcm] at hcf
      simp at hcf

/-! ## `createIngress` -/

theorem lookup_filter_ne (s : Service) (k n : String) (h : n ≠ k) :
    (s.filter (fun kv => kv.1 != k)).lookup n = s.lookup n := by
  induction s with
  | nil => rfl
  | cons kv s ih =>
    obtain ⟨a, v⟩ := kv
    by_cases hak : a = k
    · subst hak
      have hna : (n == a) = false := by simpa using h
      simp [List.filter, List.lookup, hna, ih]
    · have hf : (a != k) = true := by simpa using hak
      by_cases hna : n = a
      · simp [List.filter, hf, List.lookup, hna]
      · have hb : (n == a) = false := by simpa using hna
        simp [List.filter, hf, List.lookup, hb, ih]

theorem GetIngressSpec_Put_self (s : Service) (spec : Ingress) :
    (s.PutIngressSpec spec).GetIngressSpec spec.Name = some spec := by
  simp [Service.PutIngressSpec, Service.GetIngressSpec, List.lookup]

theorem GetIngressSpec_Put_other (s : Service) (spec : Ingress) (n : String)
    (h : n ≠ spec.Name) :
    (s.PutIngressSpec spec).GetIngressSpec n = s.GetIngressSpec n := by
  have hb : (n == spec.Name) = false := by simpa using h
  simp only [Service.PutIngressSpec, Service.GetIngressSpec, List.lookup, hb]
  exact lookup_filter_ne s spec.Name n h

/-- The five ways through `createIngress`. -/
theorem createIngress_eq (readAPISpec : Request → Except String Ingress) (service : Service)
    (r : Request) :
    createIngress readAPISpec service r =
      if r.ingressName = "" then (service, HandleAPIError 400 "empty ingress name")
      else match readAPISpec r with
        | .error err => (service, HandleAPIError 400 err)
        | .ok spec =>
          if r.ingressName ≠ spec.Name then
            (service, HandleAPIError 400 ("name conflict: " ++ r.ingressName ++ " " ++ spec.Name))
          else if (service.GetIngressSpec r.ingressName).isSome then
            (service, HandleAPIError 409 (r.ingressName ++ " existed"))
          else
            (service.PutIngressSpec spec,
              { status := 201, header := [("Location", r.urlPath)], error := none }) := by
  unfold createIngress readIngressName
  by_cases h0 : r.ingressName = ""
  · simp [h0, StatusBadRequest]
  · simp only [h0, if_false]
    cases hs : readAPISpec r with
    | error err => simp [StatusBadRequest]
    | ok spec =>
      by_cases hn : r.ingressName = spec.Name
      · dsimp only
        rw [if_neg (not_not.2 hn), if_neg (not_not.2 hn)]
        cases hg : service.GetIngressSpec r.ingressName with
        | none => simp [StatusCreated]
        | some old => simp [StatusConflict]
      · dsimp only
        rw [if_pos hn, if_pos hn]
        simp [StatusBadRequest]

/-- Claim C10 fails as stated: with the name `a` stored, a request for `a` whose body
decodes to a spec named `b` is answered 400, not 409. -/
theorem createIngress_present_name_answers_400 :
    Service.GetIngressSpec [("a", Ingress.mk "a" [])] "a" ≠ none
      ∧ (createIngress (fun _ => .ok (Ingress.mk "b" [])) [("a", Ingress.mk "a" [])]
          (Request.mk "a" "/ingresses/a" "name: b")).2.status = 400
      ∧ (createIngress (fun _ => .ok (Ingress.mk "b" [])) [("a", Ingress.mk "a" [])]
          (Request.mk "a" "/ingresses/a" "name: b")).2.status ≠ 409 := by
  decide

/-- Claim C10 as amended: `createIngress` never overwrites an existing ingress. Every name
stored before is stored with the same spec afterwards. The service is unchanged when the URL
ingress name is empty, when the body does not decode, when the spec name of the body differs
from the URL name, and when the name is already stored. The status is that of the first
check that fails, in the order of the code: 400 for an empty URL name, 400 for a body that
does not decode, 400 for a differing spec name, 409 for a name already stored. Status 201 is
given exactly when the name is non-empty, equals the spec name and is absent, and then the
spec is stored under that name. -/
theorem createIngress_never_overwrites (readAPISpec : Request → Except String Ingress)
    (service : Service) (r : Request) :
    (∀ n old, service.GetIngressSpec n = some old →
        (createIngress readAPISpec service r).1.GetIngressSpec n = some old)
      ∧ (r.ingressName = "" →
          (createIngress readAPISpec service r).1 = service
            ∧ (createIngress readAPISpec service r).2.status = 400)
      ∧ (∀ err, readAPISpec r = .error err →
          (createIngress readAPISpec service r).1 = service
            ∧ (createIngress readAPISpec service r).2.status = 400)
      ∧ (∀ spec, readAPISpec r = .ok spec → spec.Name ≠ r.ingressName →
          (createIngress readAPISpec service r).1 = service
            ∧ (createIngress readAPISpec service r).2.status = 400)
      ∧ (service.GetIngressSpec r.ingressName ≠ none →
          (createIngress readAPISpec service r).1 = service
            ∧ (∀ spec, r.ingressName ≠ "" → readAPISpec r = .ok spec →
                spec.Name = r.ingressName →
                (createIngress readAPISpec service r).2.status = 409))
      ∧ ((createIngress readAPISpec service r).2.status = 201 ↔
          r.ingressName ≠ "" ∧ service.GetIngressSpec r.ingressName = none
            ∧ ∃ spec, readAPISpec r = .ok spec ∧ spec.Name = r.ingressName)
      ∧ ((createIngress readAPISpec service r).2.status ≠ 201 →
          (createIngress readAPISpec service r).1 = service)
      ∧ (∀ spec, r.ingressName ≠ "" → readAPISpec r = .ok spec → spec.Name = r.ingressName →
          service.GetIngressSpec r.ingressName = none →
          (createIngress readAPISpec service r).1 = service.PutIngressSpec spec
            ∧ (createIngress readAPISpec service r).1.GetIngressSpec r.ingressName = some spec
            ∧ (createIngress readAPISpec service r).2.status = 201) := by
  rw [createIngress_eq]
  by_cases h0 : r.ingressName = ""
  · rw [if_pos h0]
    simp [h0, HandleAPIError]
  · rw [if_neg h0]
    cases hs : readAPISpec r with
    | error err => simp [h0, HandleAPIError]
    | ok spec =>
      by_cases hn : r.ingressName = spec.Name
      · dsimp only
        rw [if_neg (not_not.2 hn)]
        cases hg : service.GetIngressSpec r.ingressName with
        | none =>
          rw [if_neg (by simp)]
          refine ⟨?_, ?_, ?_, ?_, ?_, ?_, ?_, ?_⟩
          · intro n old hno
            have hne : n ≠ spec.Name := by
              intro he
              rw [he, ← hn, hg] at hno
              cases hno
            rw [GetIngressSpec_Put_other _ _ _ hne]
            exact hno
          · intro h; exact absurd h h0
          · intro err herr; cases herr
          · intro sp hsp hne
            cases hsp
            exact absurd hn.symm hne
          · intro h; exact absurd rfl h
          · exact ⟨fun _ => ⟨h0, rfl, spec, rfl, hn.symm⟩, fun _ => rfl⟩
          · intro h; exact absurd rfl h
          · intro sp _ hsp _ _
            cases hsp
            exact ⟨rfl, by rw [hn]; exact GetIngressSpec_Put_self _ _, rfl⟩
        | some old =>
          rw [if_pos (by simp)]
          refine ⟨fun n o h => h, fun h => absurd h h0, ?_, ?_, ?_, ?_, ?_, ?_⟩
          · intro err herr
            cases herr
          · intro sp hsp hne
            cases hsp
            exact absurd hn.symm hne
          · intro _
            refine ⟨rfl, ?_⟩
            intro sp _ _ _
            rfl
          · simp only [HandleAPIError]
            constructor
            · intro h; cases h
            · rintro ⟨_, hnone, _⟩
              cases hnone
          · intro _; rfl
          · intro sp _ _ _ hnone
            cases hnone
      · dsimp only
        rw [if_pos hn]
        refine ⟨fun n o h => h, fun h => absurd h h0, ?_, ?_, ?_, ?_, ?_, ?_⟩
        · intro err herr
          cases herr
        · intro sp _ _
          exact ⟨rfl, rfl⟩
        · intro _
          refine ⟨rfl, ?_⟩
          intro sp _ hsp he
          cases hsp
          exact absurd he.symm hn
        · simp only [HandleAPIError]
          constructor
          · intro h; cases h
          · rintro ⟨_, _, sp, hsp, he⟩
            cases hsp
            exact absurd he.symm hn
        · intro _; rfl
        · intro sp _ hsp he
          cases hsp
          exact absurd he.symm hn

end Easegress
